import Mathlib

/-!
Verification development for the cedar image-build orchestration engine
(repository Operese/cedar). The Go sources are shallowly embedded: pure
control flow becomes Lean functions, Go errors become `Option String` /
`Except String`, and the OS calls that the Go code reaches through
package-level function variables (`osRemoveAll`, `exec.Cmd.Run`, ...) are
passed in explicitly as capability records (`FsWorld`, `CmdWorld`), in the
style the repository itself uses for test substitution.

The snapshot carries two revisions of the state-machine file; the fully
featured one (resume metadata, cleanup on error, teardown persistence) is
the one consistent with `internal/statemachine/helper.go` and is the code
the claims cite, so that revision is embedded here.
-/

namespace Cedar

/-- Common command-line options (commands.CommonOpts). -/
structure CommonOpts where
  Debug : Bool
  Verbose : Bool
  Quiet : Bool
  Channel : String
  Validation : String
  DryRun : Bool
  OutputDir : String
deriving Repr

/-- State-machine command-line options (commands.StateMachineOpts).
`Until` and `Thru` are in the commands revision under src/; `WorkDir` and
`Resume` are referenced by `helper.go` (`validateInput`) and by the
state-machine file but the commands revision declaring them is not under
src/; they are included as the spec documents them (`--resume` requires an
explicit `--workdir`). -/
structure StateMachineOpts where
  Until : String
  Thru : String
  WorkDir : String
  Resume : Bool
deriving Repr

/-- A named build step (statemachine.stateFunc). In Go the function acts on
the whole *StateMachine; here it acts on the abstract mutable build context
`σ` that the steps care about, while the loop bookkeeping fields are kept
in `StateMachine` itself. -/
structure stateFunc (σ : Type) where
  name : String
  fn : σ → Except String σ

/-- Work-directory scratch tree (statemachine.temporaryDirectories). -/
structure tempDirectories where
  rootfs : String
  unpack : String
  volumes : String
  chroot : String
  scratch : String
deriving Repr, DecidableEq

/-- One partition ("structure") of a gadget volume. `YamlIndex` mirrors
gadget.VolumeStructure.YamlIndex, which is deliberately not serialized;
`payload` stands for the rest of the (serialized) structure fields. -/
structure VolumeStructure where
  YamlIndex : Nat
  payload : String
deriving Repr, DecidableEq

/-- A gadget volume (gadget.Volume): its ordered partition list. -/
structure Volume where
  Structure : List VolumeStructure
deriving Repr, DecidableEq

/-- The parsed gadget.yaml info (gadget.Info): named volumes in order. -/
structure GadgetInfo where
  Volumes : List (String × Volume)
deriving Repr, DecidableEq

/-- The engine state (statemachine.StateMachine), fields as in the
full-featured revision of state_machine.go. `ctx` is the abstract part of
the build context the step functions read and write. -/
structure StateMachine (σ : Type) where
  cleanWorkDir : Bool
  CurrentStep : String
  StepsTaken : Nat
  ConfDefPath : String
  YamlFilePath : String
  IsSeeded : Bool
  RootfsVolName : String
  RootfsPartNum : Int
  SectorSize : Nat
  RootfsSize : Nat
  tempDirs : tempDirectories
  series : String
  commonFlags : CommonOpts
  stateMachineFlags : StateMachineOpts
  states : List (stateFunc σ)
  GadgetInfo : Option GadgetInfo
  ImageSizes : List (String × Nat)
  VolumeOrder : List String
  VolumeNames : List (String × String)
  MainVolumeName : String
  Packages : List String
  Snaps : List String
  ctx : σ

/-- Checkpoint file name (statemachine.metadataStateFile in the featured
revision; the trimmed revision renames it to cedar.json). -/
def metadataStateFile : String := "ubuntu-image.json"

/-- Filesystem capabilities reached through the package-level function
variables; a call returns `some msg` when the OS reports an error. -/
structure FsWorld where
  removeAll : String → Option String
  writeFile : String → Option String

/-- helper.go validateInput: flag-combination validation run by Setup
before any step executes. -/
def validateInput (sm : StateMachine σ) : Except String Unit :=
  if sm.stateMachineFlags.Thru ≠ "" ∧ sm.stateMachineFlags.Until ≠ "" then
    .error "cannot specify both --until and --thru"
  else if sm.stateMachineFlags.WorkDir = "" ∧ sm.stateMachineFlags.Resume then
    .error "must specify workdir when using --resume flag"
  else if [sm.commonFlags.Debug, sm.commonFlags.Verbose, sm.commonFlags.Quiet].countP (fun b => b) > 1 then
    .error "--quiet, --verbose, and --debug flags are mutually exclusive"
  else
    .ok ()

/-- helper.go cleanup: removes the work directory when the engine owns a
self-created one; wraps an OS failure in the source's message. -/
def cleanup (w : FsWorld) (sm : StateMachine σ) : Option String :=
  if sm.cleanWorkDir then
    match w.removeAll sm.stateMachineFlags.WorkDir with
    | some e => some ("Error cleaning up workDir: " ++ e)
    | none => none
  else none

/-- Result of a Run: the names of the steps whose function was invoked (in
order), the final machine, and the error if any. -/
structure RunResult (σ : Type) where
  executed : List String
  final : StateMachine σ
  err : Option String

/-- The step loop of StateMachine.Run: sets CurrentStep, breaks before a
step named `--until`, invokes the step, on error cleans up the work
directory and joins a cleanup failure with the step error, on success
increments StepsTaken and breaks after a step named `--thru`. -/
def runLoop (w : FsWorld) : StateMachine σ → List (stateFunc σ) → RunResult σ
  | sm, [] => ⟨[], sm, none⟩
  | sm, sf :: rest =>
    let sm1 := { sm with CurrentStep := sf.name }
    if sf.name = sm.stateMachineFlags.Until then ⟨[], sm1, none⟩
    else
      match sf.fn sm.ctx with
      | .error e =>
        match cleanup w sm1 with
        | some cleanupErr =>
          ⟨[sf.name], sm1, some ("error during cleanup: " ++ cleanupErr ++ " while cleaning after stateFunc error: " ++ e)⟩
        | none => ⟨[sf.name], sm1, some e⟩
      | .ok c =>
        let sm2 := { sm1 with ctx := c, StepsTaken := sm1.StepsTaken + 1 }
        if sf.name = sm.stateMachineFlags.Thru then ⟨[sf.name], sm2, none⟩
        else
          let r := runLoop w sm2 rest
          ⟨sf.name :: r.executed, r.final, r.err⟩

/-- StateMachine.Run: no-op success on a dry run, otherwise the step loop
over the pending states. -/
def Run (w : FsWorld) (sm : StateMachine σ) : RunResult σ :=
  if sm.commonFlags.DryRun then ⟨[], sm, none⟩ else runLoop w sm sm.states

/-- The serializable snapshot written by writeMetadata: exactly the
exported StateMachine fields that json.Marshal keeps (states, flags,
tempDirs, series, cleanWorkDir and the step functions are not persisted;
VolumeStructure.YamlIndex is not serialized either). -/
structure Metadata where
  CurrentStep : String
  StepsTaken : Nat
  ConfDefPath : String
  YamlFilePath : String
  IsSeeded : Bool
  RootfsVolName : String
  RootfsPartNum : Int
  SectorSize : Nat
  RootfsSize : Nat
  GadgetInfo : Option GadgetInfo
  ImageSizes : List (String × Nat)
  VolumeOrder : List String
  VolumeNames : List (String × String)
  MainVolumeName : String
  Packages : List String
  Snaps : List String
deriving Repr, DecidableEq

/-- json.Marshal forgetting the non-serialized YamlIndex of every volume
structure (it carries the Go zero value after a round trip). -/
def stripYamlIndexes (info : GadgetInfo) : GadgetInfo :=
  ⟨info.Volumes.map (fun nv => (nv.1, ⟨nv.2.Structure.map (fun s => { s with YamlIndex := 0 })⟩))⟩

/-- json.Marshal of a StateMachine: the exported, serialized fields. -/
def marshalMetadata (sm : StateMachine σ) : Metadata where
  CurrentStep := sm.CurrentStep
  StepsTaken := sm.StepsTaken
  ConfDefPath := sm.ConfDefPath
  YamlFilePath := sm.YamlFilePath
  IsSeeded := sm.IsSeeded
  RootfsVolName := sm.RootfsVolName
  RootfsPartNum := sm.RootfsPartNum
  SectorSize := sm.SectorSize
  RootfsSize := sm.RootfsSize
  GadgetInfo := sm.GadgetInfo.map stripYamlIndexes
  ImageSizes := sm.ImageSizes
  VolumeOrder := sm.VolumeOrder
  VolumeNames := sm.VolumeNames
  MainVolumeName := sm.MainVolumeName
  Packages := sm.Packages
  Snaps := sm.Snaps

/-- json.Unmarshal of a checkpoint into a zero-valued StateMachine
(`blank` supplies the zero values of the non-serialized fields, as
`&StateMachine{}` does in readMetadata). -/
def unmarshalMetadata (m : Metadata) (blank : StateMachine σ) : StateMachine σ :=
  { blank with
    CurrentStep := m.CurrentStep
    StepsTaken := m.StepsTaken
    ConfDefPath := m.ConfDefPath
    YamlFilePath := m.YamlFilePath
    IsSeeded := m.IsSeeded
    RootfsVolName := m.RootfsVolName
    RootfsPartNum := m.RootfsPartNum
    SectorSize := m.SectorSize
    RootfsSize := m.RootfsSize
    GadgetInfo := m.GadgetInfo
    ImageSizes := m.ImageSizes
    VolumeOrder := m.VolumeOrder
    VolumeNames := m.VolumeNames
    MainVolumeName := m.MainVolumeName
    Packages := m.Packages
    Snaps := m.Snaps }

/-- rebuildYamlIndex: after a load, reset every VolumeStructure.YamlIndex
to its position in the structure slice (the serialization is assumed to
preserve element order, as the source comment states). -/
def rebuildYamlIndex (info : GadgetInfo) : GadgetInfo :=
  ⟨info.Volumes.map (fun nv =>
    (nv.1, ⟨nv.2.Structure.mapIdx (fun i s => { s with YamlIndex := i })⟩))⟩

/-- filepath.Join of the five scratch subdirectories under the work
directory, as loadState and makeTemporaryDirectories derive them. -/
def deriveTempDirs (workDir : String) : tempDirectories where
  rootfs := workDir ++ "/root"
  unpack := workDir ++ "/unpack"
  volumes := workDir ++ "/volumes"
  chroot := workDir ++ "/chroot"
  scratch := workDir ++ "/scratch"

/-- state_machine.go loadState: install a decoded partial state machine
into a freshly planned one. Rejects a completed-step count larger than the
fresh plan, otherwise drops the already-run leading states, copies the
persisted BuildContext fields, re-derives the scratch directories from the
work directory, and reconstructs the volume YamlIndex values. -/
def loadState (sm partialStateMachine : StateMachine σ) : Except String (StateMachine σ) :=
  let st := partialStateMachine.StepsTaken
  if st > sm.states.length then
    .error ("invalid steps taken count (" ++ toString st ++ "). The state machine only have " ++ toString sm.states.length ++ " steps")
  else
    .ok { sm with
      StepsTaken := st
      states := sm.states.drop st
      CurrentStep := partialStateMachine.CurrentStep
      YamlFilePath := partialStateMachine.YamlFilePath
      IsSeeded := partialStateMachine.IsSeeded
      RootfsVolName := partialStateMachine.RootfsVolName
      RootfsPartNum := partialStateMachine.RootfsPartNum
      SectorSize := partialStateMachine.SectorSize
      RootfsSize := partialStateMachine.RootfsSize
      tempDirs := deriveTempDirs sm.stateMachineFlags.WorkDir
      GadgetInfo := partialStateMachine.GadgetInfo.map rebuildYamlIndex
      ImageSizes := partialStateMachine.ImageSizes
      VolumeOrder := partialStateMachine.VolumeOrder
      VolumeNames := partialStateMachine.VolumeNames
      MainVolumeName := partialStateMachine.MainVolumeName
      Packages := partialStateMachine.Packages
      Snaps := partialStateMachine.Snaps }

/-- The externally visible filesystem action Teardown takes; writing the
checkpoint records the path and the serialized bytes (as Metadata). -/
inductive TeardownEffect where
  | noop
  | removedWorkDir (path : String)
  | wroteCheckpoint (path : String) (data : Metadata)
deriving Repr, DecidableEq

/-- state_machine.go writeMetadata: serialize the machine to the metadata
file inside the work directory. -/
def writeMetadata (w : FsWorld) (sm : StateMachine σ) (metadataFile : String) :
    TeardownEffect × Option String :=
  let jsonfilePath := sm.stateMachineFlags.WorkDir ++ "/" ++ metadataFile
  match w.writeFile jsonfilePath with
  | some e => (.noop, some ("failed to write metadata to file: " ++ e))
  | none => (.wroteCheckpoint jsonfilePath (marshalMetadata sm), none)

/-- state_machine.go Teardown: nothing on dry run; delete a self-created
work directory outright; otherwise persist the checkpoint. -/
def Teardown (w : FsWorld) (sm : StateMachine σ) : TeardownEffect × Option String :=
  if sm.commonFlags.DryRun then (.noop, none)
  else if sm.cleanWorkDir then
    (.removedWorkDir sm.stateMachineFlags.WorkDir, cleanup w sm)
  else writeMetadata w sm metadataStateFile

/-- An external command (exec.Cmd), identified by its String() rendering. -/
structure Cmd where
  str : String
deriving Repr, DecidableEq

/-- The outcome of handing a command to the OS: whether cmd.Run() returns
nil and what output the command produced. -/
structure CmdWorld where
  runOk : Cmd → Bool
  output : Cmd → String

/-- The per-command failure report appended by execTeardownCmds
(helper.go line 160; the double space after "command" is in the source). -/
def teardownReport (w : CmdWorld) (c : Cmd) : String :=
  "teardown command  \"" ++ c.str ++ "\" failed. Output: \n" ++ w.output c

/-- The errs slice built by the loop of execTeardownCmds: one report per
failing command, in command order; a failure never stops the loop. -/
def collectTeardownErrs (w : CmdWorld) : List Cmd → List String
  | [] => []
  | c :: rest =>
    if w.runOk c then collectTeardownErrs w rest
    else teardownReport w c :: collectTeardownErrs w rest

/-- helper.go execTeardownCmds: run every teardown command, collect the
failures, and join them with the pre-existing error (if any); with no
failures the prior error is returned unchanged. -/
def execTeardownCmds (w : CmdWorld) (teardownCmds : List Cmd) (_debug : Bool)
    (prevErr : Option String) : Option String :=
  let errs := collectTeardownErrs w teardownCmds
  if errs.length > 0 then
    match prevErr with
    | some p => some (String.intercalate "\n" (p :: errs))
    | none => some ("teardown failed: " ++ String.intercalate "\n" errs)
  else prevErr

/-- A mount descriptor (statemachine.mountPoint): source name, base path,
path relative to the base, filesystem type, mount options. -/
structure mountPoint where
  src_ : String
  basePath : String
  relpath : String
  typ : String
  opts : List String
deriving Repr, DecidableEq

/-- The target path of a mount point (basePath joined with relpath). -/
def mountPoint.targetPath (mp : mountPoint) : String :=
  mp.basePath ++ mp.relpath

/-- Modelled from the spec: mountPoint.getMountCmd is not under src/ (only
its caller preseedClassicImage is). Per the spec's MountPoint contract it
"produces exactly one acquire command and one matching release command";
the acquire command mounts `typ` at basePath/relpath with the options, the
release command unmounts that same path. -/
def mountPoint.getMountCmd (mp : mountPoint) : Cmd × Cmd :=
  (⟨"mount -t " ++ mp.typ
      ++ (if mp.opts.isEmpty then "" else " -o " ++ String.intercalate "," mp.opts)
      ++ " " ++ mp.src_ ++ " " ++ mp.targetPath⟩,
   ⟨"umount " ++ mp.targetPath⟩)

/-- The fixed settle command prepended ahead of all release commands. -/
def settleCmd : Cmd := ⟨"udevadm settle"⟩

/-- The snap-preseed invocation appended after the mount commands. -/
def snapPreseedCmd (imagePath : String) : Cmd :=
  ⟨imagePath ++ "/usr/lib/snapd/snap-preseed " ++ imagePath⟩

/-- The five virtual-filesystem mounts set up by preseedClassicImage, in
declaration order. -/
def preseedMountPoints (imagePath : String) : List mountPoint :=
  [⟨"devtmpfs-build", imagePath, "/dev", "devtmpfs", []⟩,
   ⟨"devpts-build", imagePath, "/dev/pts", "devpts", ["nodev", "nosuid"]⟩,
   ⟨"proc-build", imagePath, "/proc", "proc", []⟩,
   ⟨"none", imagePath, "/sys/kernel/security", "securityfs", []⟩,
   ⟨"none", imagePath, "/sys/fs/cgroup", "cgroup2", []⟩]

/-- The mount-point loop of preseedClassicImage: acquire commands are
appended front-to-back in declaration order, each release command is
prepended to the teardown list (LIFO). -/
def buildPreseedCmdLists (mps : List mountPoint) : List Cmd × List Cmd :=
  mps.foldl
    (fun acc mp =>
      let mc := mp.getMountCmd
      (acc.1 ++ [mc.1], mc.2 :: acc.2))
    ([], [])

/-- Modelled from the spec: helper.RunCmds is not under src/. Per the spec,
acquisition commands run in order and an acquisition failure aborts the
remaining acquisitions, surfacing the failure. -/
def RunCmds (w : CmdWorld) : List Cmd → Option String
  | [] => none
  | c :: rest =>
    if w.runOk c then RunCmds w rest
    else some ("command \"" ++ c.str ++ "\" failed")

/-- Modelled from the spec: teardownMount is not under src/ (only its
caller preseedClassicImage and execTeardownCmds are). Per the spec it
attempts every release command and aggregates release failures with the
original error, which is exactly execTeardownCmds. -/
def teardownMount (w : CmdWorld) (teardownCmds : List Cmd) (err : Option String)
    (debug : Bool) : Option String :=
  execTeardownCmds w teardownCmds debug err

/-- preseedClassicImage (the preseed step): build the mount and teardown
command lists from the five mount points, put one settle command ahead of
all releases, append the snap-preseed invocation to the acquisitions, run
the acquisitions, and release unconditionally on every exit path, joining
release failures with the step's own error. -/
def preseedClassicImage (w : CmdWorld) (imagePath : String) (debug : Bool) : Option String :=
  let lists := buildPreseedCmdLists (preseedMountPoints imagePath)
  let teardownCmds := settleCmd :: lists.2
  let preseedCmds := lists.1 ++ [snapPreseedCmd imagePath]
  teardownMount w teardownCmds (RunCmds w preseedCmds) debug

/-- An extra-PPA entry of the definition (name, optional auth credentials,
optional fingerprint). -/
structure PPA where
  Name : String
  Auth : String
  Fingerprint : String
deriving Repr, DecidableEq

/-- A manual created-directory entry. -/
structure MakeDirEntry where
  Path : String
deriving Repr, DecidableEq

/-- A manual copy-file entry (only the destination is validated). -/
structure CopyFileEntry where
  Dest : String
deriving Repr, DecidableEq

/-- A manual touch-file entry. -/
structure TouchFileEntry where
  TouchPath : String
deriving Repr, DecidableEq

/-- The manual filesystem-mutation customizations. -/
structure Manual where
  MakeDirs : Option (List MakeDirEntry)
  CopyFile : Option (List CopyFileEntry)
  TouchFile : Option (List TouchFileEntry)
deriving Repr, DecidableEq

/-- The customization section of the definition. -/
structure Customization where
  ExtraPPAs : List PPA
  Manual : Option Manual
deriving Repr, DecidableEq

/-- The gadget descriptor of the definition. -/
structure Gadget where
  GadgetType : String
  GadgetURL : String
deriving Repr, DecidableEq

/-- The artifacts section: which output files are requested (img and qcow2
carry the is_disk struct tag). -/
structure Artifacts where
  Img : Option String
  Qcow2 : Option String
  Manifest : Option String
  Filelist : Option String
deriving Repr, DecidableEq

/-- The parsed definition file (snaplist.SnapList). The snap_list.go
revision under src/ declares Architecture, Series and Snaps; the Gadget,
Artifacts and Customization fields are the ones the validator in
classic.go reads, with the shapes the spec's BuildDefinition gives them. -/
structure SnapList where
  Architecture : String
  Series : String
  Snaps : List (String × String)
  Gadget : Option Gadget
  Artifacts : Option Artifacts
  Customization : Option Customization
deriving Repr, DecidableEq

/-- One collected validation error: the error kind plus its ErrorDetails
key/value pairs (gojsonschema ResultError). -/
structure ValidationErr where
  errType : String
  details : List (String × String)
deriving Repr, DecidableEq

/-- filepath.IsAbs on linux: the path starts with a slash. -/
def filepathIsAbs (path : String) : Bool :=
  match path.toList with
  | '/' :: _ => true
  | _ => false

/-- One list is a prefix of another (over characters). -/
def listIsPrefix : List Char → List Char → Bool
  | [], _ => true
  | _ :: _, [] => false
  | a :: as, b :: bs => a = b && listIsPrefix as bs

/-- `needle` occurs somewhere inside the second list. -/
def listContainsSub (needle : List Char) : List Char → Bool
  | [] => needle.isEmpty
  | c :: rest => listIsPrefix needle (c :: rest) || listContainsSub needle rest

/-- strings.Contains: `sub` occurs as a substring of `s`. -/
def stringsContains (s sub : String) : Bool :=
  listContainsSub sub.toList s.toList

/-- classic.go validateAbsolutePath: appends one nonAbsoluteManualPath
error (with the offending key and value) when the path is not absolute or
contains the substring "/../". -/
def validateAbsolutePath (path errorKey : String) (result : List ValidationErr) :
    List ValidationErr :=
  if !(filepathIsAbs path) || stringsContains path "/../" then
    result ++ [⟨"nonAbsoluteManualPath", [("key", errorKey), ("value", path)]⟩]
  else result

/-- classic.go validateManualMakeDirs. -/
def validateManualMakeDirs (man : Manual) (result : List ValidationErr) : List ValidationErr :=
  match man.MakeDirs with
  | none => result
  | some mkdirs =>
    mkdirs.foldl (fun res mkdir =>
      validateAbsolutePath mkdir.Path "customization:manual:mkdir:destination" res) result

/-- classic.go validateManualCopyFile. -/
def validateManualCopyF (man : Manual) (result : List ValidationErr) : List ValidationErr :=
  match man.CopyFile with
  | none => result
  | some copies =>
    copies.foldl (fun res cp =>
      validateAbsolutePath cp.Dest "customization:manual:copy-file:destination" res) result

/-- classic.go validateManualTouchFile. -/
def validateManualTouchF (man : Manual) (result : List ValidationErr) : List ValidationErr :=
  match man.TouchFile with
  | none => result
  | some touches =>
    touches.foldl (fun res touch =>
      validateAbsolutePath touch.TouchPath "customization:manual:touch-file:path" res) result

/-- classic.go validateExtraPPAs: an entry with auth set and an empty
fingerprint adds one invalid-PPA error naming the PPA. -/
def validateExtraPPAs (custom : Customization) (result : List ValidationErr) : List ValidationErr :=
  custom.ExtraPPAs.foldl
    (fun res p =>
      if p.Auth ≠ "" ∧ p.Fingerprint = "" then
        res ++ [⟨"missingPrivatePPAFingerprint", [("ppaName", p.Name)]⟩]
      else res)
    result

/-- classic.go validateCustomization: nothing without a customization
section; otherwise the PPA rule and, when manual mutations exist, the
three absolute-path rules. -/
def validateCustomization (sl : SnapList) (result : List ValidationErr) : List ValidationErr :=
  match sl.Customization with
  | none => result
  | some custom =>
    let r := validateExtraPPAs custom result
    match custom.Manual with
    | none => r
    | some man => validateManualTouchF man (validateManualCopyF man (validateManualMakeDirs man r))

/-- Modelled from the spec: helper.CheckTags is not under src/. It returns
the key of the first requested artifact carrying the is_disk struct tag
(img, then qcow2 per the spec's disk-shaped outputs), or "" when no
disk-shaped artifact is requested. -/
def checkTagsIsDisk (a : Artifacts) : String :=
  if a.Img.isSome then "img" else if a.Qcow2.isSome then "qcow2" else ""

/-- classic.go validateGadget: a non-prebuilt gadget must carry a URL; a
definition without a gadget may not request a disk-shaped artifact. -/
def validateGadget (sl : SnapList) (result : List ValidationErr) : List ValidationErr :=
  match sl.Gadget with
  | some g =>
    if g.GadgetType ≠ "prebuilt" ∧ g.GadgetURL = "" then
      result ++ [⟨"missingURL", [("key", "gadget:type"), ("value", g.GadgetType)]⟩]
    else result
  | none =>
    match sl.Artifacts with
    | some a =>
      let diskUsed := checkTagsIsDisk a
      if diskUsed ≠ "" then
        result ++ [⟨"dependentKey", [("key1", diskUsed), ("key2", "gadget:")]⟩]
      else result
    | none => result

/-- Rendering of result.Errors() in the failure message. -/
def renderErrs (errs : List ValidationErr) : String :=
  String.intercalate ", " (errs.map (fun e => e.errType))

/-- classic.go validateSnapList: the generic schema check and the empty-
field check are external (gojsonschema, helper.CheckEmptyFields); their
collected violations enter as `schemaErrs` and `emptyFieldErrs`. The
business rules then append their violations to the same aggregated result,
and only the final `result.Valid()` check turns a non-empty aggregate into
a failure. -/
def validateSnapList (schemaErrs emptyFieldErrs : List ValidationErr) (sl : SnapList) :
    Except String Unit :=
  let r1 := validateGadget sl schemaErrs
  let r2 := validateCustomization sl r1
  let r3 := r2 ++ emptyFieldErrs
  if r3 ≠ [] then .error ("Schema validation failed: " ++ renderErrs r3)
  else .ok ()

/-- The gadget-rule violations of a definition on their own. -/
def gadgetErrs (sl : SnapList) : List ValidationErr :=
  validateGadget sl []

/-- The customization-rule violations of a definition on their own. -/
def customizationErrs (sl : SnapList) : List ValidationErr :=
  validateCustomization sl []

/-- Everything the validator aggregates, rule by rule. -/
def collectAllErrs (schemaErrs emptyFieldErrs : List ValidationErr) (sl : SnapList) :
    List ValidationErr :=
  schemaErrs ++ gadgetErrs sl ++ customizationErrs sl ++ emptyFieldErrs

/-- Split a character list on a separator (strings.Split). -/
def splitOnChar (sep : Char) : List Char → List (List Char)
  | [] => [[]]
  | c :: rest =>
    let r := splitOnChar sep rest
    if c = sep then [] :: r
    else
      match r with
      | h :: t => (c :: h) :: t
      | [] => [[c]]

/-- Written from the spec's words, for comparison with the source: a path
contains no parent-traversal segment when no "/"-separated component is
"..". -/
def specNoParentTraversal (path : String) : Bool :=
  !((splitOnChar '/' path.toList).contains ['.', '.'])

/-- Written from the spec's words, for comparison with the source: the
spec accepts a manual target path iff it is absolute and has no
parent-traversal segment. -/
def specAcceptsManualPath (path : String) : Bool :=
  filepathIsAbs path && specNoParentTraversal path

/-- classic.go snapSeedStates: the two-state sequence appended by the
planner. The step bodies perform external work; they are passed in as
capabilities, the names are the source's. -/
def snapSeedStates (prepFn preseedFn : σ → Except String σ) : List (stateFunc σ) :=
  [⟨"prepare_image", prepFn⟩, ⟨"preseed_image", preseedFn⟩]

/-- classic.go calculateStates: appends snapSeedStates to the machine's
state list, unconditionally and without consulting the definition. -/
def calculateStates (prepFn preseedFn : σ → Except String σ) (s : StateMachine σ) :
    StateMachine σ :=
  { s with states := s.states ++ snapSeedStates prepFn preseedFn }

/-- takeThru c l: the prefix of l up to and including the first element
equal to c (all of l when c does not occur). -/
def takeThru (c : String) : List String → List String
  | [] => []
  | n :: rest => if n = c then [n] else n :: takeThru c rest

/-- Quiet default flags for concrete examples. -/
def exampleOpts : CommonOpts :=
  ⟨false, false, false, "", "", false, ""⟩

/-- Dry-run flags for concrete examples. -/
def exampleDryOpts : CommonOpts :=
  ⟨false, false, false, "", "", true, ""⟩

/-- State-machine flags with the given until/thru bounds and a fixed
user-supplied work directory. -/
def exampleFlags (u t : String) : StateMachineOpts :=
  ⟨u, t, "/wd", false⟩

/-- A step that succeeds without touching the context. -/
def okStep (n : String) : stateFunc Unit :=
  ⟨n, fun s => .ok s⟩

/-- A step that fails with a fixed message. -/
def failStep (n msg : String) : stateFunc Unit :=
  ⟨n, fun _ => .error msg⟩

/-- A concrete engine over the trivial context, for evaluating the
theorems at explicit inputs. -/
def exampleSM (fl : StateMachineOpts) (sts : List (stateFunc Unit)) : StateMachine Unit where
  cleanWorkDir := false
  CurrentStep := ""
  StepsTaken := 0
  ConfDefPath := ""
  YamlFilePath := ""
  IsSeeded := false
  RootfsVolName := ""
  RootfsPartNum := 0
  SectorSize := 512
  RootfsSize := 0
  tempDirs := deriveTempDirs "/wd"
  series := ""
  commonFlags := exampleOpts
  stateMachineFlags := fl
  states := sts
  GadgetInfo := none
  ImageSizes := []
  VolumeOrder := []
  VolumeNames := []
  MainVolumeName := ""
  Packages := []
  Snaps := []
  ctx := ()

/-- A filesystem world where every OS call succeeds. -/
def fsOkWorld : FsWorld :=
  ⟨fun _ => none, fun _ => none⟩

/-- The four-step demonstration plan a, b, c, d. -/
def demoSteps : List (stateFunc Unit) :=
  [okStep "a", okStep "b", okStep "c", okStep "d"]

/-- A persisted partial machine that finished two steps and accumulated a
package and a snap. -/
def demoPartial : StateMachine Unit :=
  { exampleSM (exampleFlags "" "") [] with
    StepsTaken := 2
    CurrentStep := "b"
    Packages := ["pkg"]
    Snaps := ["snapd"]
    GadgetInfo := some ⟨[("pc", ⟨[⟨7, "esp"⟩, ⟨9, "root"⟩]⟩)]⟩ }

/-- A command that the example world runs successfully. -/
def cmdGood : Cmd := ⟨"umount /a"⟩

/-- A command that the example world fails to run. -/
def cmdBad : Cmd := ⟨"umount /b"⟩

/-- A command world where exactly `cmdBad` fails, producing output
"busy". -/
def exampleCmdWorld : CmdWorld where
  runOk := fun c => !(c.str == "umount /b")
  output := fun _ => "busy"

/-- When the until bound is `c` and the thru bound is unset, a loop over
steps with non-empty names and error-free bodies executes exactly the
names strictly before the first occurrence of `c`, succeeds, and advances
StepsTaken once per executed step. -/
theorem runLoop_ok_until (w : FsWorld) (c : String) (states : List (stateFunc σ)) :
    ∀ sm : StateMachine σ,
      sm.stateMachineFlags.Until = c →
      sm.stateMachineFlags.Thru = "" →
      (∀ sf ∈ states, sf.name ≠ "") →
      (∀ sf ∈ states, ∀ s, ∃ t, sf.fn s = Except.ok t) →
      (runLoop w sm states).executed =
        (states.map stateFunc.name).takeWhile (fun n => n != c)
      ∧ (runLoop w sm states).err = none
      ∧ (runLoop w sm states).final.StepsTaken =
          sm.StepsTaken + ((states.map stateFunc.name).takeWhile (fun n => n != c)).length := by
  induction states with
  | nil =>
    intro sm _ _ _ _
    simp [runLoop]
  | cons sf rest ih =>
    intro sm hU hT hne hok
    have hname : sf.name ≠ "" := hne sf (List.mem_cons_self _ _)
    by_cases hc : sf.name = c
    · simp [runLoop, hU, hc]
    · obtain ⟨t, ht⟩ := hok sf (List.mem_cons_self _ _) sm.ctx
      have hthru : ¬ sf.name = sm.stateMachineFlags.Thru := by
        rw [hT]; exact hname
      obtain ⟨h1, h2, h3⟩ :=
        ih { sm with CurrentStep := sf.name, ctx := t, StepsTaken := sm.StepsTaken + 1 }
          hU hT (fun x hx => hne x (List.mem_cons_of_mem _ hx))
          (fun x hx => hok x (List.mem_cons_of_mem _ hx))
      have hbne : (sf.name != c) = true := by simpa using hc
      simp only [runLoop, hU, if_neg hc, ht, if_neg hthru, List.map_cons,
        List.takeWhile_cons, hbne, if_true] at h1 h2 h3 ⊢
      refine ⟨by simpa using h1, by simpa using h2, ?_⟩
      simp only [List.length_cons] at h3 ⊢
      omega

/-- When the thru bound is `c` and the until bound is unset, a loop over
steps with non-empty names and error-free bodies executes exactly the
names up to and including the first occurrence of `c`, succeeds, and
advances StepsTaken once per executed step. -/
theorem runLoop_ok_thru (w : FsWorld) (c : String) (states : List (stateFunc σ)) :
    ∀ sm : StateMachine σ,
      sm.stateMachineFlags.Until = "" →
      sm.stateMachineFlags.Thru = c →
      (∀ sf ∈ states, sf.name ≠ "") →
      (∀ sf ∈ states, ∀ s, ∃ t, sf.fn s = Except.ok t) →
      (runLoop w sm states).executed = takeThru c (states.map stateFunc.name)
      ∧ (runLoop w sm states).err = none
      ∧ (runLoop w sm states).final.StepsTaken =
          sm.StepsTaken + (takeThru c (states.map stateFunc.name)).length := by
  induction states with
  | nil =>
    intro sm _ _ _ _
    simp [runLoop, takeThru]
  | cons sf rest ih =>
    intro sm hU hT hne hok
    have hname : sf.name ≠ "" := hne sf (List.mem_cons_self _ _)
    have huntil : ¬ sf.name = sm.stateMachineFlags.Until := by
      rw [hU]; exact hname
    obtain ⟨t, ht⟩ := hok sf (List.mem_cons_self _ _) sm.ctx
    by_cases hc : sf.name = c
    · have hthru : sf.name = sm.stateMachineFlags.Thru := by rw [hT, hc]
      have hcne : c ≠ "" := hc ▸ hname
      simp [runLoop, hU, hT, ht, hname, hc, hcne, takeThru]
    · have hthru : ¬ sf.name = sm.stateMachineFlags.Thru := by
        rw [hT]; exact hc
      obtain ⟨h1, h2, h3⟩ :=
        ih { sm with CurrentStep := sf.name, ctx := t, StepsTaken := sm.StepsTaken + 1 }
          hU hT (fun x hx => hne x (List.mem_cons_of_mem _ hx))
          (fun x hx => hok x (List.mem_cons_of_mem _ hx))
      simp only [runLoop, if_neg huntil, ht, if_neg hthru, List.map_cons, takeThru,
        if_neg hc] at h1 h2 h3 ⊢
      refine ⟨by simpa using h1, by simpa using h2, ?_⟩
      simp only [List.length_cons] at h3 ⊢
      omega

/-- A loop with unset bounds over a prefix of non-empty-named, error-free
steps followed by a step whose body fails with `e`: the prefix and the
failing step execute, nothing after the failing step does, the failing
step's name is the current step, StepsTaken counts only the prefix, and
the returned error is the step error joined with any cleanup failure. -/
theorem runLoop_fail (w : FsWorld) (e : String) (f : stateFunc σ)
    (post : List (stateFunc σ)) (pre : List (stateFunc σ)) :
    ∀ sm : StateMachine σ,
      sm.stateMachineFlags.Until = "" →
      sm.stateMachineFlags.Thru = "" →
      (∀ sf ∈ pre, sf.name ≠ "") →
      (∀ sf ∈ pre, ∀ s, ∃ t, sf.fn s = Except.ok t) →
      f.name ≠ "" →
      (∀ s, f.fn s = Except.error e) →
      (runLoop w sm (pre ++ f :: post)).executed = pre.map stateFunc.name ++ [f.name]
      ∧ (runLoop w sm (pre ++ f :: post)).final.CurrentStep = f.name
      ∧ (runLoop w sm (pre ++ f :: post)).final.StepsTaken = sm.StepsTaken + pre.length
      ∧ (runLoop w sm (pre ++ f :: post)).err =
          some (match cleanup w sm with
            | some cleanupErr =>
              "error during cleanup: " ++ cleanupErr ++ " while cleaning after stateFunc error: " ++ e
            | none => e) := by
  induction pre with
  | nil =>
    intro sm hU hT _ _ hfname hf
    have huntil : ¬ f.name = sm.stateMachineFlags.Until := by
      rw [hU]; exact hfname
    cases hcl : cleanup w { sm with CurrentStep := f.name } with
    | none =>
      have hcl' : cleanup w sm = none := hcl
      simp [runLoop, if_neg huntil, hf sm.ctx, hcl, hcl']
    | some ce =>
      have hcl' : cleanup w sm = some ce := hcl
      simp [runLoop, if_neg huntil, hf sm.ctx, hcl, hcl']
  | cons sf rest ih =>
    intro sm hU hT hne hok hfname hf
    have hname : sf.name ≠ "" := hne sf (List.mem_cons_self _ _)
    have huntil : ¬ sf.name = sm.stateMachineFlags.Until := by
      rw [hU]; exact hname
    have hthru : ¬ sf.name = sm.stateMachineFlags.Thru := by
      rw [hT]; exact hname
    obtain ⟨t, ht⟩ := hok sf (List.mem_cons_self _ _) sm.ctx
    obtain ⟨h1, h2, h3, h4⟩ :=
      ih { sm with CurrentStep := sf.name, ctx := t, StepsTaken := sm.StepsTaken + 1 }
        hU hT (fun x hx => hne x (List.mem_cons_of_mem _ hx))
        (fun x hx => hok x (List.mem_cons_of_mem _ hx)) hfname hf
    have hclsame : cleanup w { sm with CurrentStep := sf.name, ctx := t, StepsTaken := sm.StepsTaken + 1 } = cleanup w sm := rfl
    rw [hclsame] at h4
    simp only [List.cons_append, List.append_eq, runLoop, if_neg huntil, ht, if_neg hthru,
      List.map_cons, List.length_cons] at h1 h2 h3 h4 ⊢
    refine ⟨by simpa using h1, by simpa using h2, ?_, by simpa using h4⟩
    omega

/-- The teardown loop reports exactly the failing commands, in order. -/
theorem collectTeardownErrs_eq_filter (w : CmdWorld) (cmds : List Cmd) :
    collectTeardownErrs w cmds =
      (cmds.filter (fun c => !(w.runOk c))).map (teardownReport w) := by
  induction cmds with
  | nil => rfl
  | cons c rest ih =>
    by_cases h : w.runOk c
    · simp [collectTeardownErrs, h, List.filter_cons, ih]
    · simp [collectTeardownErrs, h, List.filter_cons, ih]

/-- C10: execTeardownCmds returns the prior error unchanged when every
teardown command succeeds (nil stays nil); it returns a non-nil error iff
the prior error is non-nil or some command fails; and with a prior error
and failures, the message is the prior error followed by every failed
command's report, none dropped. -/
theorem C10_execTeardownCmds_contract (w : CmdWorld) (cmds : List Cmd) (debug : Bool)
    (prevErr : Option String) :
    ((∀ c ∈ cmds, w.runOk c = true) → execTeardownCmds w cmds debug prevErr = prevErr)
    ∧ ((execTeardownCmds w cmds debug prevErr).isSome ↔
        prevErr.isSome ∨ ∃ c ∈ cmds, w.runOk c = false)
    ∧ (∀ p, prevErr = some p → (∃ c ∈ cmds, w.runOk c = false) →
        execTeardownCmds w cmds debug prevErr =
          some (String.intercalate "\n"
            (p :: (cmds.filter (fun c => !(w.runOk c))).map (teardownReport w)))) := by
  have hcol := collectTeardownErrs_eq_filter w cmds
  by_cases hfail : cmds.filter (fun c => !(w.runOk c)) = []
  · have hall : ∀ c ∈ cmds, w.runOk c = true := by
      intro c hc
      have := List.filter_eq_nil_iff.mp hfail c hc
      simpa using this
    have hexec : execTeardownCmds w cmds debug prevErr = prevErr := by
      simp [execTeardownCmds, hcol, hfail]
    refine ⟨fun _ => hexec, ?_, ?_⟩
    · rw [hexec]
      constructor
      · exact fun h => Or.inl h
      · rintro (h | ⟨c, hc, hbad⟩)
        · exact h
        · exact absurd (hall c hc) (by simp [hbad])
    · rintro p rfl ⟨c, hc, hbad⟩
      exact absurd (hall c hc) (by simp [hbad])
  · have hlen : ((cmds.filter (fun c => !(w.runOk c))).map (teardownReport w)).length > 0 := by
      simpa using List.length_pos.mpr (by simpa [List.map_eq_nil_iff] using hfail)
    obtain ⟨cbad, hcbadmem, hcbad⟩ : ∃ c ∈ cmds, w.runOk c = false := by
      obtain ⟨x, hx⟩ := List.exists_mem_of_ne_nil _ hfail
      have hx' := List.mem_filter.mp hx
      exact ⟨x, hx'.1, by simpa using hx'.2⟩
    cases prevErr with
    | none =>
      refine ⟨?_, ?_, ?_⟩
      · intro hall
        exact absurd (hall cbad hcbadmem) (by simp [hcbad])
      · simp only [execTeardownCmds, hcol]
        rw [if_pos hlen]
        simp only [Option.isSome_none, Bool.false_eq_true, false_or, Option.isSome_some]
        simp only [true_iff]
        exact ⟨cbad, hcbadmem, hcbad⟩
      · intro p hp
        exact absurd hp (by simp)
    | some p0 =>
      refine ⟨?_, ?_, ?_⟩
      · intro hall
        exact absurd (hall cbad hcbadmem) (by simp [hcbad])
      · simp only [execTeardownCmds, hcol]
        rw [if_pos hlen]
        simp
      · rintro p hp _
        obtain rfl : p0 = p := by injection hp
        simp only [execTeardownCmds, hcol]
        rw [if_pos hlen]

/-- The acquire list is built front-to-back and the release list is built
by prepending, so the releases end up in exactly reversed order. -/
theorem buildPreseedCmdLists_eq (mps : List mountPoint) :
    ∀ acc : List Cmd × List Cmd,
      mps.foldl
        (fun acc mp =>
          let mc := mp.getMountCmd
          (acc.1 ++ [mc.1], mc.2 :: acc.2)) acc
      = (acc.1 ++ mps.map (fun mp => mp.getMountCmd.1),
         (mps.map (fun mp => mp.getMountCmd.2)).reverse ++ acc.2) := by
  induction mps with
  | nil => intro acc; simp
  | cons mp rest ih =>
    intro acc
    rw [List.foldl_cons, ih]
    simp

/-- C2: the preseed step's release command list is the exact reverse of
its acquire command list with one settle command ahead of all releases;
execTeardownCmds attempts every release regardless of earlier failures,
and its error carries the original failure (if any) and every release
failure. -/
theorem C2_preseed_teardown_contract (w : CmdWorld) (imagePath : String) (debug : Bool)
    (mps : List mountPoint) (cmds : List Cmd) (prevErr : Option String) :
    buildPreseedCmdLists mps =
      (mps.map (fun mp => mp.getMountCmd.1), (mps.map (fun mp => mp.getMountCmd.2)).reverse)
    ∧ preseedClassicImage w imagePath debug =
        execTeardownCmds w
          (settleCmd :: ((preseedMountPoints imagePath).map (fun mp => mp.getMountCmd.2)).reverse)
          debug
          (RunCmds w ((preseedMountPoints imagePath).map (fun mp => mp.getMountCmd.1)
            ++ [snapPreseedCmd imagePath]))
    ∧ execTeardownCmds w cmds debug prevErr =
        (if (cmds.filter (fun c => !(w.runOk c))).isEmpty then prevErr
         else
           some (match prevErr with
             | some p =>
               String.intercalate "\n"
                 (p :: (cmds.filter (fun c => !(w.runOk c))).map (teardownReport w))
             | none =>
               "teardown failed: " ++ String.intercalate "\n"
                 ((cmds.filter (fun c => !(w.runOk c))).map (teardownReport w)))) := by
  have hbuild : ∀ l : List mountPoint,
      buildPreseedCmdLists l =
        (l.map (fun mp => mp.getMountCmd.1), (l.map (fun mp => mp.getMountCmd.2)).reverse) := by
    intro l
    have := buildPreseedCmdLists_eq l ([], [])
    simpa [buildPreseedCmdLists] using this
  refine ⟨hbuild mps, ?_, ?_⟩
  · rw [preseedClassicImage, teardownMount, hbuild (preseedMountPoints imagePath)]
  · have hcol := collectTeardownErrs_eq_filter w cmds
    by_cases hfail : cmds.filter (fun c => !(w.runOk c)) = []
    · simp [execTeardownCmds, hcol, hfail]
    · have hlen : ((cmds.filter (fun c => !(w.runOk c))).map (teardownReport w)).length > 0 := by
        simpa using List.length_pos.mpr (by simpa [List.map_eq_nil_iff] using hfail)
      have hne : ((cmds.filter (fun c => !(w.runOk c))).isEmpty) = false := by
        simpa [List.isEmpty_iff] using hfail
      cases prevErr with
      | none =>
        simp only [execTeardownCmds, hcol, hne, Bool.false_eq_true, if_false]
        rw [if_pos hlen]
      | some p =>
        simp only [execTeardownCmds, hcol, hne, Bool.false_eq_true, if_false]
        rw [if_pos hlen]

/-- Loading a checkpoint whose completed-step count fits the fresh plan
succeeds, drops the leading completed states, and installs every persisted
BuildContext field, while the fresh machine's flags and plan base are
kept. -/
theorem loadState_ok (sm partialSm : StateMachine σ)
    (h : partialSm.StepsTaken ≤ sm.states.length) :
    ∃ sm', loadState sm partialSm = Except.ok sm'
      ∧ sm'.StepsTaken = partialSm.StepsTaken
      ∧ sm'.states = sm.states.drop partialSm.StepsTaken
      ∧ sm'.CurrentStep = partialSm.CurrentStep
      ∧ sm'.YamlFilePath = partialSm.YamlFilePath
      ∧ sm'.IsSeeded = partialSm.IsSeeded
      ∧ sm'.RootfsVolName = partialSm.RootfsVolName
      ∧ sm'.RootfsPartNum = partialSm.RootfsPartNum
      ∧ sm'.SectorSize = partialSm.SectorSize
      ∧ sm'.RootfsSize = partialSm.RootfsSize
      ∧ sm'.tempDirs = deriveTempDirs sm.stateMachineFlags.WorkDir
      ∧ sm'.GadgetInfo = partialSm.GadgetInfo.map rebuildYamlIndex
      ∧ sm'.ImageSizes = partialSm.ImageSizes
      ∧ sm'.VolumeOrder = partialSm.VolumeOrder
      ∧ sm'.VolumeNames = partialSm.VolumeNames
      ∧ sm'.MainVolumeName = partialSm.MainVolumeName
      ∧ sm'.Packages = partialSm.Packages
      ∧ sm'.Snaps = partialSm.Snaps
      ∧ sm'.commonFlags = sm.commonFlags
      ∧ sm'.stateMachineFlags = sm.stateMachineFlags := by
  have hcond : ¬ partialSm.StepsTaken > sm.states.length := by omega
  refine ⟨{ sm with
      StepsTaken := partialSm.StepsTaken
      states := sm.states.drop partialSm.StepsTaken
      CurrentStep := partialSm.CurrentStep
      YamlFilePath := partialSm.YamlFilePath
      IsSeeded := partialSm.IsSeeded
      RootfsVolName := partialSm.RootfsVolName
      RootfsPartNum := partialSm.RootfsPartNum
      SectorSize := partialSm.SectorSize
      RootfsSize := partialSm.RootfsSize
      tempDirs := deriveTempDirs sm.stateMachineFlags.WorkDir
      GadgetInfo := partialSm.GadgetInfo.map rebuildYamlIndex
      ImageSizes := partialSm.ImageSizes
      VolumeOrder := partialSm.VolumeOrder
      VolumeNames := partialSm.VolumeNames
      MainVolumeName := partialSm.MainVolumeName
      Packages := partialSm.Packages
      Snaps := partialSm.Snaps }, ?_, rfl, rfl, rfl, rfl, rfl, rfl, rfl, rfl, rfl, rfl, rfl, rfl,
    rfl, rfl, rfl, rfl, rfl, rfl, rfl⟩
  simp only [loadState, if_neg hcond]

/-- C4: loading checkpoint state with a completed-step count strictly
larger than the fresh plan fails with the ResumeError; with a count within
the plan it succeeds, the pending sequence is the fresh plan minus its
leading N entries, and every persisted BuildContext field is installed
into the new engine. -/
theorem C4_loadState_contract (sm partialSm : StateMachine σ) :
    (partialSm.StepsTaken > sm.states.length →
      loadState sm partialSm =
        Except.error ("invalid steps taken count (" ++ toString partialSm.StepsTaken
          ++ "). The state machine only have " ++ toString sm.states.length ++ " steps"))
    ∧ (partialSm.StepsTaken ≤ sm.states.length →
      ∃ sm', loadState sm partialSm = Except.ok sm'
        ∧ sm'.StepsTaken = partialSm.StepsTaken
        ∧ sm'.states = sm.states.drop partialSm.StepsTaken
        ∧ sm'.CurrentStep = partialSm.CurrentStep
        ∧ sm'.YamlFilePath = partialSm.YamlFilePath
        ∧ sm'.IsSeeded = partialSm.IsSeeded
        ∧ sm'.RootfsVolName = partialSm.RootfsVolName
        ∧ sm'.RootfsPartNum = partialSm.RootfsPartNum
        ∧ sm'.SectorSize = partialSm.SectorSize
        ∧ sm'.RootfsSize = partialSm.RootfsSize
        ∧ sm'.tempDirs = deriveTempDirs sm.stateMachineFlags.WorkDir
        ∧ sm'.GadgetInfo = partialSm.GadgetInfo.map rebuildYamlIndex
        ∧ sm'.ImageSizes = partialSm.ImageSizes
        ∧ sm'.VolumeOrder = partialSm.VolumeOrder
        ∧ sm'.VolumeNames = partialSm.VolumeNames
        ∧ sm'.MainVolumeName = partialSm.MainVolumeName
        ∧ sm'.Packages = partialSm.Packages
        ∧ sm'.Snaps = partialSm.Snaps
        ∧ sm'.commonFlags = sm.commonFlags
        ∧ sm'.stateMachineFlags = sm.stateMachineFlags) := by
  constructor
  · intro hgt
    simp only [loadState, if_pos hgt]
  · intro hle
    exact loadState_ok sm partialSm hle

/-- C4 witness: a checkpoint with two completed steps loads into a fresh
four-step plan, leaving the last two steps pending and installing the
accumulated package and snap lists. -/
theorem C4_loadState_contract_witness :
    ∃ sm', loadState (exampleSM (exampleFlags "" "") demoSteps) demoPartial = Except.ok sm'
      ∧ sm'.states = [okStep "c", okStep "d"]
      ∧ sm'.StepsTaken = 2
      ∧ sm'.Packages = ["pkg"]
      ∧ sm'.Snaps = ["snapd"] := by
  obtain ⟨sm', he, hsteps, hstates, _, _, _, _, _, _, _, _, _, _, _, _, _, hpkg, hsnap, _, _⟩ :=
    (C4_loadState_contract (exampleSM (exampleFlags "" "") demoSteps) demoPartial).2 (by decide)
  exact ⟨sm', he, hstates, hsteps, hpkg, hsnap⟩

/-- C6: Teardown is a no-op on a dry run; with an engine-owned self-created
work directory it deletes that directory outright; otherwise it persists
the serialized BuildContext and the completed-step counter to the
checkpoint file inside the work directory. -/
theorem C6_teardown_contract (w : FsWorld) (sm : StateMachine σ) :
    (sm.commonFlags.DryRun = true → Teardown w sm = (TeardownEffect.noop, none))
    ∧ (sm.commonFlags.DryRun = false → sm.cleanWorkDir = true →
        Teardown w sm = (TeardownEffect.removedWorkDir sm.stateMachineFlags.WorkDir, cleanup w sm))
    ∧ (sm.commonFlags.DryRun = false → sm.cleanWorkDir = false →
        w.writeFile (sm.stateMachineFlags.WorkDir ++ "/" ++ metadataStateFile) = none →
        Teardown w sm =
          (TeardownEffect.wroteCheckpoint (sm.stateMachineFlags.WorkDir ++ "/" ++ metadataStateFile)
            (marshalMetadata sm), none)
        ∧ (marshalMetadata sm).StepsTaken = sm.StepsTaken
        ∧ (marshalMetadata sm).CurrentStep = sm.CurrentStep
        ∧ (marshalMetadata sm).Packages = sm.Packages
        ∧ (marshalMetadata sm).Snaps = sm.Snaps
        ∧ (marshalMetadata sm).ImageSizes = sm.ImageSizes
        ∧ (marshalMetadata sm).VolumeOrder = sm.VolumeOrder) := by
  refine ⟨?_, ?_, ?_⟩
  · intro hdry
    simp [Teardown, hdry]
  · intro hdry hclean
    simp [Teardown, hdry, hclean]
  · intro hdry hclean hwrite
    refine ⟨?_, rfl, rfl, rfl, rfl, rfl, rfl⟩
    simp [Teardown, hdry, hclean, writeMetadata, hwrite]

/-- C6 witness: the three Teardown behaviors at concrete engines. -/
theorem C6_teardown_contract_witness :
    Teardown fsOkWorld { exampleSM (exampleFlags "" "") [] with commonFlags := exampleDryOpts }
      = (TeardownEffect.noop, none)
    ∧ Teardown fsOkWorld { exampleSM (exampleFlags "" "") [] with cleanWorkDir := true }
      = (TeardownEffect.removedWorkDir "/wd", none)
    ∧ Teardown fsOkWorld (exampleSM (exampleFlags "" "") [])
      = (TeardownEffect.wroteCheckpoint ("/wd" ++ "/" ++ metadataStateFile)
          (marshalMetadata (exampleSM (exampleFlags "" "") [])), none) := by
  refine ⟨?_, ?_, ?_⟩
  · exact (C6_teardown_contract fsOkWorld _).1 rfl
  · exact (C6_teardown_contract fsOkWorld _).2.1 rfl rfl
  · exact ((C6_teardown_contract fsOkWorld _).2.2 rfl rfl rfl).1

/-- A fold that appends per-element errors only reads its accumulator to
append to it, so the accumulator factors out. -/
theorem foldl_err_append {α : Type} (h : α → List ValidationErr)
    (g : List ValidationErr → α → List ValidationErr)
    (hg : ∀ r x, g r x = r ++ h x) (l : List α) :
    ∀ r, l.foldl g r = r ++ l.foldl g [] := by
  induction l with
  | nil => intro r; simp
  | cons x xs ih =>
    intro r
    rw [List.foldl_cons, List.foldl_cons, ih (g r x), ih (g [] x), hg, hg]
    simp

/-- validateAbsolutePath only ever appends to the collected result. -/
theorem validateAbsolutePath_append (path key : String) (r : List ValidationErr) :
    validateAbsolutePath path key r = r ++ validateAbsolutePath path key [] := by
  by_cases h : (!(filepathIsAbs path) || stringsContains path "/../") = true
  · simp [validateAbsolutePath, h]
  · simp [validateAbsolutePath, h]

/-- validateManualMakeDirs only ever appends to the collected result. -/
theorem validateManualMakeDirs_append (man : Manual) (r : List ValidationErr) :
    validateManualMakeDirs man r = r ++ validateManualMakeDirs man [] := by
  cases hmk : man.MakeDirs with
  | none => simp [validateManualMakeDirs, hmk]
  | some mkdirs =>
    simp only [validateManualMakeDirs, hmk]
    exact foldl_err_append
      (fun m => validateAbsolutePath m.Path "customization:manual:mkdir:destination" [])
      _ (fun r m => validateAbsolutePath_append m.Path _ r) mkdirs r

/-- validateManualCopyFile only ever appends to the collected result. -/
theorem validateManualCopyF_append (man : Manual) (r : List ValidationErr) :
    validateManualCopyF man r = r ++ validateManualCopyF man [] := by
  cases hcp : man.CopyFile with
  | none => simp [validateManualCopyF, hcp]
  | some copies =>
    simp only [validateManualCopyF, hcp]
    exact foldl_err_append
      (fun cp => validateAbsolutePath cp.Dest "customization:manual:copy-file:destination" [])
      _ (fun r cp => validateAbsolutePath_append cp.Dest _ r) copies r

/-- validateManualTouchFile only ever appends to the collected result. -/
theorem validateManualTouchF_append (man : Manual) (r : List ValidationErr) :
    validateManualTouchF man r = r ++ validateManualTouchF man [] := by
  cases htc : man.TouchFile with
  | none => simp [validateManualTouchF, htc]
  | some touches =>
    simp only [validateManualTouchF, htc]
    exact foldl_err_append
      (fun t => validateAbsolutePath t.TouchPath "customization:manual:touch-file:path" [])
      _ (fun r t => validateAbsolutePath_append t.TouchPath _ r) touches r

/-- validateExtraPPAs only ever appends to the collected result. -/
theorem validateExtraPPAs_append (custom : Customization) (r : List ValidationErr) :
    validateExtraPPAs custom r = r ++ validateExtraPPAs custom [] := by
  refine foldl_err_append
    (fun p => if p.Auth ≠ "" ∧ p.Fingerprint = "" then
        [⟨"missingPrivatePPAFingerprint", [("ppaName", p.Name)]⟩] else [])
    _ ?_ custom.ExtraPPAs r
  intro r p
  by_cases h : p.Auth ≠ "" ∧ p.Fingerprint = ""
  · simp [h]
  · simp [h]

/-- validateCustomization only ever appends to the collected result. -/
theorem validateCustomization_append (sl : SnapList) (r : List ValidationErr) :
    validateCustomization sl r = r ++ customizationErrs sl := by
  unfold customizationErrs
  cases hcu : sl.Customization with
  | none => simp [validateCustomization, hcu]
  | some custom =>
    simp only [validateCustomization, hcu]
    cases hman : custom.Manual with
    | none =>
      rw [validateExtraPPAs_append custom r]
    | some man =>
      dsimp only
      rw [validateExtraPPAs_append custom r,
        validateManualMakeDirs_append man (r ++ validateExtraPPAs custom []),
        validateManualMakeDirs_append man (validateExtraPPAs custom []),
        validateManualCopyF_append man, validateManualCopyF_append man
          (validateExtraPPAs custom [] ++ validateManualMakeDirs man []),
        validateManualTouchF_append man, validateManualTouchF_append man
          ((validateExtraPPAs custom [] ++ validateManualMakeDirs man [])
            ++ validateManualCopyF man [])]
      simp

/-- validateGadget only ever appends to the collected result. -/
theorem validateGadget_append (sl : SnapList) (r : List ValidationErr) :
    validateGadget sl r = r ++ gadgetErrs sl := by
  unfold gadgetErrs
  cases hg : sl.Gadget with
  | some g =>
    by_cases hcond : g.GadgetType ≠ "prebuilt" ∧ g.GadgetURL = ""
    · simp [validateGadget, hg, hcond]
    · simp [validateGadget, hg, hcond]
  | none =>
    cases ha : sl.Artifacts with
    | none => simp [validateGadget, hg, ha]
    | some a =>
      by_cases hd : checkTagsIsDisk a ≠ ""
      · simp [validateGadget, hg, ha, hd]
      · simp [validateGadget, hg, ha, hd]

/-- C9: the validator never aborts on a violation: the gadget and
customization rules each append their violations to the shared aggregated
result no matter what was collected before them, the aggregate is exactly
the rule-by-rule concatenation, and the definition is accepted iff that
aggregate is empty. -/
theorem C9_validator_aggregates (schemaErrs emptyFieldErrs : List ValidationErr)
    (sl : SnapList) :
    (validateSnapList schemaErrs emptyFieldErrs sl = Except.ok () ↔
      collectAllErrs schemaErrs emptyFieldErrs sl = [])
    ∧ validateGadget sl schemaErrs = schemaErrs ++ gadgetErrs sl
    ∧ validateCustomization sl (validateGadget sl schemaErrs) =
        schemaErrs ++ gadgetErrs sl ++ customizationErrs sl
    ∧ collectAllErrs schemaErrs emptyFieldErrs sl =
        schemaErrs ++ gadgetErrs sl ++ customizationErrs sl ++ emptyFieldErrs := by
  have hg := validateGadget_append sl schemaErrs
  have hc := validateCustomization_append sl (validateGadget sl schemaErrs)
  have hpipe : validateCustomization sl (validateGadget sl schemaErrs) ++ emptyFieldErrs =
      collectAllErrs schemaErrs emptyFieldErrs sl := by
    rw [hc, hg]
    simp [collectAllErrs]
  refine ⟨?_, hg, by rw [hc, hg, List.append_assoc], by simp [collectAllErrs]⟩
  rw [validateSnapList]
  by_cases hnil : validateCustomization sl (validateGadget sl schemaErrs) ++ emptyFieldErrs = []
  · rw [if_neg (by simpa using hnil), ← hpipe]
    simp [hnil]
  · rw [if_pos (by simpa using hnil), ← hpipe]
    simp [hnil]

/-- C7 counterexample: the path "/etc/.." is absolute but ends in a
parent-traversal segment; the spec-level rule rejects it, yet
validateAbsolutePath accepts it (the code only looks for the substring
"/../"), so acceptance is not equivalent to being an absolute path with no
parent-traversal segments. -/
theorem C7_counterexample :
    validateAbsolutePath "/etc/.." "customization:manual:mkdir:destination" [] = []
    ∧ filepathIsAbs "/etc/.." = true
    ∧ specNoParentTraversal "/etc/.." = false
    ∧ specAcceptsManualPath "/etc/.." = false := by
  refine ⟨?_, ?_, ?_, ?_⟩ <;> decide

/-- C7 (amended): a manual target path is accepted iff it is absolute and
does not contain "/../" as a substring; each violating path appends
exactly one nonAbsoluteManualPath error carrying the offending key and
value, independently of previously collected errors; "../etc/passwd" and
"relative/path" fail while "/etc/foo/bar" passes. -/
theorem C7_manual_path_validation (path errorKey : String) (res : List ValidationErr)
    (man : Manual) (mkdirs : List MakeDirEntry) :
    (validateAbsolutePath path errorKey res = res ↔
      (filepathIsAbs path = true ∧ stringsContains path "/../" = false))
    ∧ validateAbsolutePath path errorKey res =
        (if filepathIsAbs path && !(stringsContains path "/../") then res
         else res ++ [⟨"nonAbsoluteManualPath", [("key", errorKey), ("value", path)]⟩])
    ∧ validateManualMakeDirs man res = res ++ validateManualMakeDirs man []
    ∧ validateManualCopyF man res = res ++ validateManualCopyF man []
    ∧ validateManualTouchF man res = res ++ validateManualTouchF man []
    ∧ validateManualMakeDirs ⟨some mkdirs, none, none⟩ [] =
        (mkdirs.map (fun m =>
          validateAbsolutePath m.Path "customization:manual:mkdir:destination" [])).flatten
    ∧ validateAbsolutePath "../etc/passwd" errorKey [] =
        [⟨"nonAbsoluteManualPath", [("key", errorKey), ("value", "../etc/passwd")]⟩]
    ∧ validateAbsolutePath "relative/path" errorKey [] =
        [⟨"nonAbsoluteManualPath", [("key", errorKey), ("value", "relative/path")]⟩]
    ∧ validateAbsolutePath "/etc/foo/bar" errorKey [] = [] := by
  refine ⟨?_, ?_, validateManualMakeDirs_append man res, validateManualCopyF_append man res,
    validateManualTouchF_append man res, ?_, ?_, ?_, ?_⟩
  · by_cases h : (!(filepathIsAbs path) || stringsContains path "/../") = true
    · simp only [validateAbsolutePath, if_pos h]
      constructor
      · intro habs
        exact absurd (congrArg List.length habs) (by simp)
      · rintro ⟨h1, h2⟩
        rw [h1, h2] at h
        simp at h
    · simp only [validateAbsolutePath, if_neg h]
      simp only [Bool.or_eq_true, Bool.not_eq_true', not_or, Bool.not_eq_true] at h
      simp only [true_iff]
      exact ⟨by simpa using h.1, h.2⟩
  · by_cases h : (!(filepathIsAbs path) || stringsContains path "/../") = true
    · have h' : (filepathIsAbs path && !(stringsContains path "/../")) = false := by
        rcases Bool.or_eq_true_iff.mp h with h1 | h1
        · simp [Bool.not_eq_true'] at h1
          simp [h1]
        · simp [h1]
      simp [validateAbsolutePath, h, h']
    · have h' : (filepathIsAbs path && !(stringsContains path "/../")) = true := by
        simp only [Bool.or_eq_true, Bool.not_eq_true', not_or, Bool.not_eq_true] at h
        simp [h.1, h.2]
      simp [validateAbsolutePath, h, h']
  · induction mkdirs with
    | nil => simp [validateManualMakeDirs]
    | cons m ms ih =>
      simp only [validateManualMakeDirs, List.foldl_cons] at ih ⊢
      rw [foldl_err_append
        (fun m => validateAbsolutePath m.Path "customization:manual:mkdir:destination" [])
        _ (fun r m => validateAbsolutePath_append m.Path _ r) ms
        (validateAbsolutePath m.Path "customization:manual:mkdir:destination" []), ih]
      simp
  · simp only [validateAbsolutePath]
    rw [if_pos (by decide :
      (!(filepathIsAbs "../etc/passwd") || stringsContains "../etc/passwd" "/../") = true)]
    simp
  · simp only [validateAbsolutePath]
    rw [if_pos (by decide :
      (!(filepathIsAbs "relative/path") || stringsContains "relative/path" "/../") = true)]
    simp
  · simp only [validateAbsolutePath]
    rw [if_neg (by decide :
      ¬ (!(filepathIsAbs "/etc/foo/bar") || stringsContains "/etc/foo/bar" "/../") = true)]

/-- C8: calculateStates appends the prepare and preseed states to every
plan, without consulting the definition or the preseed option, so even a
build that does not request preseeding gets the preseed step. -/
theorem C8_preseed_always_planned (prepFn preseedFn : σ → Except String σ)
    (sm : StateMachine σ) :
    (calculateStates prepFn preseedFn sm).states.map stateFunc.name =
      sm.states.map stateFunc.name ++ ["prepare_image", "preseed_image"] := by
  simp [calculateStates, snapSeedStates]

/-- C1: with until=c (thru unset) the engine executes exactly the steps
strictly preceding c and never c itself; with thru=c (until unset) it
executes exactly the steps up to and including c; and with both bounds set
input validation fails with the ConfigError before any step can run
(Setup aborts on validateInput before Run is reached). -/
theorem C1_until_thru_semantics (w : FsWorld) (smU smT smB : StateMachine σ) (c : String)
    (hUd : smU.commonFlags.DryRun = false)
    (hUu : smU.stateMachineFlags.Until = c)
    (hUt : smU.stateMachineFlags.Thru = "")
    (hTd : smT.commonFlags.DryRun = false)
    (hTu : smT.stateMachineFlags.Until = "")
    (hTt : smT.stateMachineFlags.Thru = c)
    (hsame : smT.states = smU.states)
    (hne : ∀ sf ∈ smU.states, sf.name ≠ "")
    (hok : ∀ sf ∈ smU.states, ∀ s, ∃ t, sf.fn s = Except.ok t)
    (_hc : c ∈ smU.states.map stateFunc.name)
    (hBu : smB.stateMachineFlags.Until ≠ "")
    (hBt : smB.stateMachineFlags.Thru ≠ "") :
    (Run w smU).executed = (smU.states.map stateFunc.name).takeWhile (fun n => n != c)
    ∧ (Run w smT).executed = takeThru c (smU.states.map stateFunc.name)
    ∧ validateInput smB = Except.error "cannot specify both --until and --thru" := by
  refine ⟨?_, ?_, ?_⟩
  · have hrun : Run w smU = runLoop w smU smU.states := by simp [Run, hUd]
    rw [hrun]
    exact (runLoop_ok_until w c smU.states smU hUu hUt hne hok).1
  · have hrun : Run w smT = runLoop w smT smT.states := by simp [Run, hTd]
    rw [hrun, ← hsame]
    exact (runLoop_ok_thru w c smT.states smT hTu hTt (hsame ▸ hne) (hsame ▸ hok)).1
  · simp [validateInput, hBu, hBt]

/-- C1 witness: on the plan [a, b, c, d], until=c runs exactly a, b;
thru=c runs exactly a, b, c; both bounds set is the ConfigError. -/
theorem C1_until_thru_semantics_witness :
    (Run fsOkWorld (exampleSM (exampleFlags "c" "") demoSteps)).executed = ["a", "b"]
    ∧ (Run fsOkWorld (exampleSM (exampleFlags "" "c") demoSteps)).executed = ["a", "b", "c"]
    ∧ validateInput (exampleSM (exampleFlags "x" "y") []) =
        Except.error "cannot specify both --until and --thru" := by
  obtain ⟨h1, h2, h3⟩ :=
    C1_until_thru_semantics fsOkWorld
      (exampleSM (exampleFlags "c" "") demoSteps)
      (exampleSM (exampleFlags "" "c") demoSteps)
      (exampleSM (exampleFlags "x" "y") []) "c"
      rfl rfl rfl rfl rfl rfl rfl
      (by intro sf hsf; fin_cases hsf <;> simp [okStep])
      (by intro sf hsf; fin_cases hsf <;> exact fun s => ⟨s, rfl⟩)
      (by decide) (by decide) (by decide)
  exact ⟨h1.trans (by decide), h2.trans (by decide), h3⟩

/-- C3: the first failing step aborts the pipeline at once: the steps
before it and the failing step itself are the only ones invoked, the
failing step's name is recorded as the current step, the completed-step
counter advances only for the successful prefix, and the returned error is
the step error, joined with the work-directory cleanup failure when the
engine owns a self-created directory and its removal fails. -/
theorem C3_step_error_aborts (w : FsWorld) (sm : StateMachine σ)
    (pre post : List (stateFunc σ)) (f : stateFunc σ) (e : String)
    (hs : sm.states = pre ++ f :: post)
    (hd : sm.commonFlags.DryRun = false)
    (hu : sm.stateMachineFlags.Until = "")
    (ht : sm.stateMachineFlags.Thru = "")
    (hne : ∀ sf ∈ pre, sf.name ≠ "")
    (hok : ∀ sf ∈ pre, ∀ s, ∃ t, sf.fn s = Except.ok t)
    (hfname : f.name ≠ "")
    (hf : ∀ s, f.fn s = Except.error e) :
    (Run w sm).executed = pre.map stateFunc.name ++ [f.name]
    ∧ (Run w sm).final.CurrentStep = f.name
    ∧ (Run w sm).final.StepsTaken = sm.StepsTaken + pre.length
    ∧ (Run w sm).err =
        some (match cleanup w sm with
          | some cleanupErr =>
            "error during cleanup: " ++ cleanupErr ++ " while cleaning after stateFunc error: " ++ e
          | none => e) := by
  have hrun : Run w sm = runLoop w sm sm.states := by simp [Run, hd]
  rw [hrun, hs]
  exact runLoop_fail w e f post pre sm hu ht hne hok hfname hf

/-- C3 witness: on the plan [a, f] where f fails with "boom" and the work
directory is user-supplied, the run executes a then f, stops, records f as
the current step, counts one completed step, and returns the original
error unchanged. -/
theorem C3_step_error_aborts_witness :
    (Run fsOkWorld (exampleSM (exampleFlags "" "") [okStep "a", failStep "f" "boom"])).executed
      = ["a", "f"]
    ∧ (Run fsOkWorld (exampleSM (exampleFlags "" "") [okStep "a", failStep "f" "boom"])).final.CurrentStep
      = "f"
    ∧ (Run fsOkWorld (exampleSM (exampleFlags "" "") [okStep "a", failStep "f" "boom"])).final.StepsTaken
      = 1
    ∧ (Run fsOkWorld (exampleSM (exampleFlags "" "") [okStep "a", failStep "f" "boom"])).err
      = some "boom" := by
  obtain ⟨h1, h2, h3, h4⟩ :=
    C3_step_error_aborts fsOkWorld
      (exampleSM (exampleFlags "" "") [okStep "a", failStep "f" "boom"])
      [okStep "a"] [] (failStep "f" "boom") "boom"
      rfl rfl rfl rfl
      (by intro sf hsf; fin_cases hsf; simp [okStep])
      (by intro sf hsf; fin_cases hsf; exact fun s => ⟨s, rfl⟩)
      (by decide) (fun s => rfl)
  exact ⟨h1, h2, h3, h4⟩

/-- C5: on the plan [a, b, c, d], running thru b executes exactly a and b;
marshalling the finished engine's metadata and loading it into a fresh
engine with the same plan leaves exactly [c, d] pending, and running the
restored engine executes c then d and nothing else. -/
theorem C5_resume_round_trip (w : FsWorld) (blank sm0 sm2 : StateMachine σ)
    (sa sb sc sd : stateFunc σ)
    (h0s : sm0.states = [sa, sb, sc, sd])
    (h0d : sm0.commonFlags.DryRun = false)
    (h0n : sm0.StepsTaken = 0)
    (h0u : sm0.stateMachineFlags.Until = "")
    (h0t : sm0.stateMachineFlags.Thru = sb.name)
    (hna : sa.name ≠ "") (hnb : sb.name ≠ "") (hnc : sc.name ≠ "") (hnd : sd.name ≠ "")
    (hab : sa.name ≠ sb.name)
    (hok : ∀ sf ∈ [sa, sb, sc, sd], ∀ s, ∃ t, sf.fn s = Except.ok t)
    (h2s : sm2.states = [sa, sb, sc, sd])
    (h2d : sm2.commonFlags.DryRun = false)
    (h2u : sm2.stateMachineFlags.Until = "")
    (h2t : sm2.stateMachineFlags.Thru = "") :
    (Run w sm0).executed = [sa.name, sb.name]
    ∧ ∃ sm3,
        loadState sm2 (unmarshalMetadata (marshalMetadata (Run w sm0).final) blank)
          = Except.ok sm3
        ∧ sm3.states = [sc, sd]
        ∧ (Run w sm3).executed = [sc.name, sd.name] := by
  have hne0 : ∀ sf ∈ sm0.states, sf.name ≠ "" := by
    rw [h0s]
    intro sf hsf
    fin_cases hsf <;> assumption
  have hok0 : ∀ sf ∈ sm0.states, ∀ s, ∃ t, sf.fn s = Except.ok t := by
    rw [h0s]; exact hok
  have hrun0 : Run w sm0 = runLoop w sm0 sm0.states := by simp [Run, h0d]
  obtain ⟨e1, e2, e3⟩ := runLoop_ok_thru w sb.name sm0.states sm0 h0u h0t hne0 hok0
  have htake : takeThru sb.name (sm0.states.map stateFunc.name) = [sa.name, sb.name] := by
    rw [h0s]
    simp [takeThru, hab]
  have hexec0 : (Run w sm0).executed = [sa.name, sb.name] := by
    rw [hrun0, e1, htake]
  have hsteps0 : (Run w sm0).final.StepsTaken = 2 := by
    rw [hrun0, e3, htake, h0n]
    rfl
  refine ⟨hexec0, ?_⟩
  have hpst : (unmarshalMetadata (marshalMetadata (Run w sm0).final) blank).StepsTaken
      = (Run w sm0).final.StepsTaken := rfl
  have hle : (unmarshalMetadata (marshalMetadata (Run w sm0).final) blank).StepsTaken
      ≤ sm2.states.length := by
    rw [hpst, hsteps0, h2s]
    simp
  obtain ⟨sm3, he, hst, hstates, _, _, _, _, _, _, _, _, _, _, _, _, _, _, _, hcf, hsf⟩ :=
    loadState_ok sm2 (unmarshalMetadata (marshalMetadata (Run w sm0).final) blank) hle
  have hstates3 : sm3.states = [sc, sd] := by
    rw [hstates, hpst, hsteps0, h2s]
    rfl
  have hne3 : ∀ sf ∈ sm3.states, sf.name ≠ "" := by
    rw [hstates3]
    intro sf hsf
    fin_cases hsf <;> assumption
  have hok3 : ∀ sf ∈ sm3.states, ∀ s, ∃ t, sf.fn s = Except.ok t := by
    rw [hstates3]
    intro sf hsf s
    have : sf ∈ [sa, sb, sc, sd] := by
      fin_cases hsf
      · exact List.mem_cons_of_mem _ (List.mem_cons_of_mem _ (List.mem_cons_self _ _))
      · exact List.mem_cons_of_mem _ (List.mem_cons_of_mem _ (List.mem_cons_of_mem _ (List.mem_cons_self _ _)))
    exact hok sf this s
  have hd3 : sm3.commonFlags.DryRun = false := by rw [hcf]; exact h2d
  have hu3 : sm3.stateMachineFlags.Until = "" := by rw [hsf]; exact h2u
  have ht3 : sm3.stateMachineFlags.Thru = "" := by rw [hsf]; exact h2t
  have hrun3 : Run w sm3 = runLoop w sm3 sm3.states := by simp [Run, hd3]
  obtain ⟨f1, _, _⟩ := runLoop_ok_until w "" sm3.states sm3 hu3 ht3 hne3 hok3
  refine ⟨sm3, he, hstates3, ?_⟩
  rw [hrun3, f1, hstates3]
  have hb1 : (sc.name != "") = true := by simpa using hnc
  have hb2 : (sd.name != "") = true := by simpa using hnd
  simp [List.takeWhile_cons, hb1, hb2]

/-- C5 witness: the round trip at the concrete plan [a, b, c, d] with a
user-supplied work directory. -/
theorem C5_resume_round_trip_witness :
    (Run fsOkWorld (exampleSM (exampleFlags "" "b") demoSteps)).executed = ["a", "b"]
    ∧ ∃ sm3,
        loadState (exampleSM (exampleFlags "" "") demoSteps)
          (unmarshalMetadata
            (marshalMetadata (Run fsOkWorld (exampleSM (exampleFlags "" "b") demoSteps)).final)
            (exampleSM (exampleFlags "" "") []))
          = Except.ok sm3
        ∧ sm3.states = [okStep "c", okStep "d"]
        ∧ (Run fsOkWorld sm3).executed = ["c", "d"] := by
  exact C5_resume_round_trip fsOkWorld
    (exampleSM (exampleFlags "" "") [])
    (exampleSM (exampleFlags "" "b") demoSteps)
    (exampleSM (exampleFlags "" "") demoSteps)
    (okStep "a") (okStep "b") (okStep "c") (okStep "d")
    rfl rfl rfl rfl rfl
    (by decide) (by decide) (by decide) (by decide) (by decide)
    (by intro sf hsf; fin_cases hsf <;> exact fun s => ⟨s, rfl⟩)
    rfl rfl rfl rfl

/-- C10 witness: with all commands succeeding the prior error comes back
unchanged, and with a failing command the message keeps the prior error
followed by the failure report. -/
theorem C10_execTeardownCmds_contract_witness :
    execTeardownCmds exampleCmdWorld [cmdGood] false (some "boom") = some "boom"
    ∧ execTeardownCmds exampleCmdWorld [cmdGood, cmdBad] false (some "boom") =
        some (String.intercalate "\n"
          ("boom" :: ([cmdGood, cmdBad].filter
            (fun c => !(exampleCmdWorld.runOk c))).map (teardownReport exampleCmdWorld))) := by
  constructor
  · exact (C10_execTeardownCmds_contract exampleCmdWorld [cmdGood] false (some "boom")).1
      (by intro cx hcx; fin_cases hcx; decide)
  · exact (C10_execTeardownCmds_contract exampleCmdWorld [cmdGood, cmdBad] false
      (some "boom")).2.2 "boom" rfl ⟨cmdBad, by decide, by decide⟩

end Cedar
